import Mathlib

/-!
Verification of the LinkKF downloader core (`linkkf_downloader.py`) against its
natural-language specification.

The Python code is shallowly embedded: strings are `List Char` / `String`,
Python floats that only ever hold exact decimals (segment durations, the 0.6
success-ratio constant) are modelled as `ℚ`, network I/O is abstracted as an
oracle function from a request description to a response, and every partial
Python operation (indexing, `float()` parsing) is modelled totally with
`Option` where the code catches the corresponding exception.

Conventions:
* `py…` functions model the Python `str` methods used by the source
  (`strip`, `find`, slicing, `startswith`, `endswith`, `split`, `in`).
* Character classes (`\d`, `\s`, `lower()`) are modelled over ASCII; the
  repository only feeds ASCII data (URLs, HTTP headers) to those operations,
  apart from the page title, whose non-ASCII characters are untouched by the
  relevant ASCII-level transformations.
-/

/-! ### Python string primitives -/

/-- Python whitespace characters, the set stripped by `str.strip()` and
matched by `\s` (ASCII part): space, tab, newline, carriage return,
vertical tab, form feed. -/
def pyWsChars : List Char := [' ', '\t', '\n', '\r', Char.ofNat 11, Char.ofNat 12]

/-- Membership in the Python whitespace class. -/
def isPyWs (c : Char) : Bool := pyWsChars.contains c

/-- Python `s.strip(chars)`: remove leading and trailing characters drawn
from `chars`. -/
def pyStripChars (chars : List Char) (s : List Char) : List Char :=
  ((s.dropWhile (chars.contains ·)).reverse.dropWhile (chars.contains ·)).reverse

/-- Python `s.strip()` (whitespace strip). -/
def pyStrip (s : List Char) : List Char := pyStripChars pyWsChars s

/-- Python `needle in haystack` (substring test) on character lists. -/
def hasSub (sub : List Char) : List Char → Bool
  | [] => sub.isEmpty
  | c :: rest => sub.isPrefixOf (c :: rest) || hasSub sub rest

/-- Python `sub in s` on `String`s. -/
def containsStr (s sub : String) : Bool := hasSub sub.data s.data

/-- Python `s.startswith(p)`. -/
def pyStartsWith (s p : String) : Bool := p.data.isPrefixOf s.data

/-- Python `s.endswith(p)`. -/
def pyEndsWith (s p : String) : Bool := p.data.isSuffixOf s.data

/-- Python `s.endswith((p₁, …, pₙ))`: true if any suffix matches. -/
def pyEndsAny (s : String) (ps : List String) : Bool := ps.any (pyEndsWith s ·)

/-- Python `s.split(sep)` for a single-character separator: splits at every
occurrence, keeping empty pieces (so the result is always nonempty). -/
def splitOnChar (sep : Char) : List Char → List (List Char)
  | [] => [[]]
  | c :: rest =>
    match splitOnChar sep rest with
    | [] => [[c]]
    | h :: t => if c = sep then [] :: h :: t else (c :: h) :: t

/-- Python `s.find(sub, start)` scanning helper: first absolute index `≥ i`
at which `sub` is a prefix of the remaining text. -/
def findFromAux (sub : List Char) : List Char → Nat → Option Nat
  | [], i => if sub.isEmpty then some i else none
  | c :: rest, i =>
    if sub.isPrefixOf (c :: rest) then some i else findFromAux sub rest (i + 1)

/-- Python `s.find(sub, start)`: index of the first occurrence at or after
`start`, or `-1`. A `start` beyond the end of the string yields `-1`. -/
def pyFind (s sub : List Char) (start : Nat) : Int :=
  if start > s.length then -1
  else
    match findFromAux sub (s.drop start) start with
    | some i => (i : Int)
    | none => -1

/-- Python slice `s[a:b]` with possibly negative bounds (step 1). -/
def pySlice (s : List Char) (a b : Int) : List Char :=
  let n : Int := s.length
  let norm : Int → Nat := fun i => if i < 0 then (n + i).toNat else min i.toNat s.length
  ((s.drop (norm a)).take (norm b - norm a))

/-- Python `s[:-k]` (drop the last `k` characters). -/
def pyDropLastN (k : Nat) (s : String) : String :=
  String.mk (s.data.take (s.data.length - k))

/-- Python `s[-1]` as a one-character string (total model: empty input gives
the empty string; every use in the source is guarded by a nonemptiness
check). -/
def pyLastChar (s : String) : String :=
  String.mk (s.data.drop (s.data.length - 1))

/-- Python `s.lower()` (ASCII case folding). -/
def pyLower (s : List Char) : List Char := s.map Char.toLower

/-! ### Lexicographic comparison of Python strings

Python compares strings lexicographically by code point; `list.sort(key=…)`
with a string key orders by this comparison and is stable. -/

/-- Python string `<` on character lists: lexicographic by code point, a
proper prefix being smaller. -/
def strLt : List Char → List Char → Bool
  | _, [] => false
  | [], _ :: _ => true
  | a :: as, b :: bs => if a < b then true else if b < a then false else strLt as bs

/-! ### Segment file names and the completion step of a download session

`download_m3u8_segments_advanced` writes each fetched segment to
`temp_dir / f"segment_{index:05d}{ext}"` where `ext` is derived from the
segment URL, collects the successful files in completion order, and after all
fetch units finish computes `final_success_rate = successes/total`, returns
failure if the rate is below `0.6` or no file succeeded, and otherwise sorts
the successful files by file name (`pair[0].name`) before invoking the
merge step. -/

/-- Decimal digit character. -/
def dig : Nat → Char
  | 0 => '0' | 1 => '1' | 2 => '2' | 3 => '3' | 4 => '4'
  | 5 => '5' | 6 => '6' | 7 => '7' | 8 => '8' | 9 => '9'
  | _ => '0'

/-- Fixed-width decimal rendering, most significant digit first (the value of
`"%0kd" % n` for `n < 10^k`). -/
def padK : Nat → Nat → List Char
  | 0, _ => []
  | k + 1, n => dig (n / 10 ^ k) :: padK k (n % 10 ^ k)

/-- Unpadded decimal rendering, fuel-driven so that the kernel can evaluate
it (the fuel strictly dominates the digit count). -/
def natDecCharsAux : Nat → Nat → List Char
  | 0, _ => []
  | fuel + 1, n =>
    if n < 10 then [dig n] else natDecCharsAux fuel (n / 10) ++ [dig (n % 10)]

/-- Unpadded decimal rendering of a natural number. -/
def natDecChars (n : Nat) : List Char := natDecCharsAux (n + 1) n

/-- Python `f"{n:05d}"`: zero-padded to five digits, unpadded decimal beyond
`99999`. -/
def pyFormat05 (n : Nat) : List Char :=
  if n < 100000 then padK 5 n else natDecChars n

/-- The file extension chosen for a segment, from
`download_segment_advanced`: `.jpg` for URLs ending in `.jpg`/`.jpeg`
(case-insensitive), `.png` for `.png`, else `.ts`. -/
def extOfUrl (url : String) : String :=
  let l := pyLower url.data
  if ".jpg".data.isSuffixOf l || ".jpeg".data.isSuffixOf l then ".jpg"
  else if ".png".data.isSuffixOf l then ".png"
  else ".ts"

/-- A successful segment fetch: the manifest index of the segment and the
segment URL (which determines the local file's extension). -/
structure SegRes where
  index : Nat
  url : String
deriving DecidableEq

/-- The local file name `f"segment_{index:05d}{ext}"` written for a
segment. -/
def segName (r : SegRes) : List Char :=
  "segment_".data ++ (pyFormat05 r.index ++ (extOfUrl r.url).data)

/-- The sort relation used on successful files:
`file_duration_pairs.sort(key=lambda x: x[0].name)` orders ascending by file
name. -/
def nameLe (a b : SegRes) : Prop := strLt (segName b) (segName a) = false

instance : DecidableRel nameLe := fun _ _ => instDecidableEqBool _ _

/-- The sort of successful segment files by file name (Python's stable sort;
file names are produced injectively from distinct indices, so any stable
sort yields the same list). -/
def sortByName (l : List SegRes) : List SegRes := List.insertionSort nameLe l

/-- Outcome of the completion step of a download session. -/
inductive SessionStep where
  | insufficientRatio : SessionStep
  | noSuccess : SessionStep
  | assemble : List SegRes → SessionStep
deriving DecidableEq

/-- The completion policy of `download_m3u8_segments_advanced` after all
fetch units finish, one `Option SegRes` per manifest entry in completion
order: fail if `successes/total < 0.6`, fail if nothing succeeded, else sort
the successes by file name and hand them to the merge step. The float
division and comparison against `0.6` are modelled exactly over `ℚ`. -/
def completeSession (results : List (Option SegRes)) : SessionStep :=
  let successes := results.filterMap id
  if ((successes.length : ℚ) / (results.length : ℚ)) < 3 / 5 then .insufficientRatio
  else if successes.length = 0 then .noSuccess
  else .assemble (sortByName successes)

/-- A session of 100001 successful segments, all `.ts`, in completion order
equal to manifest order. -/
def res100001 : List SegRes := (List.range 100001).map (fun i => ⟨i, "x.ts"⟩)

/-! ### URL helpers shared by the fetch and parse stages -/

/-- Split a character list at the first occurrence of `sub`, returning the
part before and the part after it. -/
def splitOnSub (sub : List Char) : List Char → Option (List Char × List Char)
  | [] => if sub.isEmpty then some ([], []) else none
  | c :: rest =>
    if sub.isPrefixOf (c :: rest) then some ([], (c :: rest).drop sub.length)
    else (splitOnSub sub rest).map (fun p => (c :: p.1, p.2))

/-- The string `f"{parsed.scheme}://{parsed.netloc}"` computed by the source
from `urlparse(m3u8_url)`, modelled for URLs of the shape
`scheme://netloc/…` (every call site passes an absolute `http(s)` URL; the
scheme is case-folded as `urlparse` does, and the netloc extends to the
first `/`, `?` or `#`). -/
def urlOrigin (u : String) : String :=
  match splitOnSub "://".data u.data with
  | none => "://"
  | some p =>
    String.mk (pyLower p.1 ++ "://".data ++
      p.2.takeWhile (fun c => !(c = '/' || c = '?' || c = '#')))

/-- `m3u8_url.rsplit('/', 1)[0] + '/'`: the manifest URL's directory,
including the trailing slash. -/
def basePathOf (u : String) : String :=
  if u.data.contains '/' then String.mk ((u.data.reverse.dropWhile (· ≠ '/')).reverse)
  else u ++ "/"

/-! ### Manifest parsing (`download_m3u8_segments_advanced`, playlist loop)

The loop scans stripped lines, tracking `current_duration` (initially `5.0`);
an `#EXTINF:` line updates it (resetting to `5.0` when the declared value
does not parse); empty and `#`-lines are skipped; any other line is resolved
to an absolute URL and appended together with the tracked duration.
Durations are exact decimals modelled in `ℚ`. -/

/-- Decimal digit run to a natural number. -/
def digitsToNat (cs : List Char) : Nat :=
  cs.foldl (fun acc c => acc * 10 + (c.toNat - 48)) 0

/-- Python `float(s)` on the finite plain-decimal forms
(`[±]digits`, `[±]digits.digits`, `[±].digits`, `[±]digits.`, surrounding
whitespace allowed), yielding the exact rational value; other accepted forms
of `float` (exponents, `inf`/`nan`, digit underscores) are not produced by
the playlists this feeds on and map to `none`. -/
def parseFloatQ (s : String) : Option ℚ :=
  let cs := pyStrip s.data
  let signed : Bool × List Char :=
    match cs with
    | '-' :: r => (true, r)
    | '+' :: r => (false, r)
    | r => (false, r)
  let body := signed.2
  let ip := body.takeWhile (·.isDigit)
  let rest := body.dropWhile (·.isDigit)
  let val : Option ℚ :=
    match rest with
    | [] => if ip.isEmpty then none else some (mkRat (digitsToNat ip) 1)
    | '.' :: fr =>
      let fp := fr.takeWhile (·.isDigit)
      let rest2 := fr.dropWhile (·.isDigit)
      if rest2.isEmpty && !(ip.isEmpty && fp.isEmpty) then
        some (mkRat (digitsToNat ip * 10 ^ fp.length + digitsToNat fp) (10 ^ fp.length))
      else none
    | _ => none
  val.map (fun q => if signed.1 then -q else q)

/-- Effect of one (stripped) line on `current_duration`: an `#EXTINF:` line
replaces it by `float(line.split(':')[1].split(',')[0])`, falling back to
`5.0` when that raises; any other line leaves it unchanged. -/
def extinfDuration (cur : ℚ) (line : List Char) : ℚ :=
  if "#EXTINF:".data.isPrefixOf line then
    match (splitOnChar ':' line).get? 1 with
    | none => 5
    | some piece =>
      match (splitOnChar ',' piece).head? with
      | none => 5
      | some ds =>
        match parseFloatQ (String.mk ds) with
        | some q => q
        | none => 5
  else cur

/-- Resolution of a non-comment, non-empty line to an absolute URL:
`http…` lines pass through, `/`-lines are joined to the manifest's
scheme and host, and any other line is joined to the manifest's directory
(the source calls `urljoin(base_path, line)`; for the plain relative
references the loop feeds it — no scheme, no leading slash, no dot
segments — `urljoin` is exactly this concatenation). -/
def resolveLine (m3u8Url : String) (line : List Char) : String :=
  if "http".data.isPrefixOf line then String.mk line
  else if "/".data.isPrefixOf line then urlOrigin m3u8Url ++ String.mk line
  else basePathOf m3u8Url ++ String.mk line

/-- The playlist loop over raw lines with the tracked duration as state,
producing `(absolute URL, duration)` in encounter order. -/
def parseLinesAux (m3u8Url : String) : List (List Char) → ℚ → List (String × ℚ)
  | [], _ => []
  | raw :: rest, cur =>
    let line := pyStrip raw
    let cur2 := extinfDuration cur line
    if line.isEmpty || "#".data.isPrefixOf line then parseLinesAux m3u8Url rest cur2
    else (resolveLine m3u8Url line, cur2) :: parseLinesAux m3u8Url rest cur2

/-- One manifest entry: sequence index, absolute segment URL, duration. -/
structure MEntry where
  index : Nat
  url : String
  duration : ℚ
deriving DecidableEq

/-- `parseManifest`: split the playlist text on newlines, run the playlist
loop with initial duration `5.0`, and index the entries in encounter order
(the source keeps parallel `segments`/`segment_durations` lists and indexes
them with `enumerate`). -/
def parseManifest (m3u8Url text : String) : List MEntry :=
  ((parseLinesAux m3u8Url (splitOnChar '\n' text.data) 5).enum).map
    (fun p => ⟨p.1, p.2.1, p.2.2⟩)

/-! ### URL validation (`validate_url`)

The source checks `re.match(r'https://linkkf\.live/player/v\d+-sub-\d+/', url)`:
an anchored-at-start match of the literal scheme+host prefix, one or more
digits, `-sub-`, one or more digits, and a slash; anything may follow. Since
each `\d+` is followed by a non-digit literal, greedy maximal-munch scanning
is exact. `\d` is modelled as ASCII digits. -/

/-- Remove an expected literal prefix, returning the remainder. -/
def dropPrefixQ : List Char → List Char → Option (List Char)
  | [], s => some s
  | _ :: _, [] => none
  | p :: ps, c :: cs => if c = p then dropPrefixQ ps cs else none

/-- `validate_url` from the source: the anchored regex match as a Boolean. -/
def validate_url (url : String) : Bool :=
  match dropPrefixQ "https://linkkf.live/player/v".data url.data with
  | none => false
  | some r1 =>
    if (r1.takeWhile Char.isDigit).isEmpty then false
    else
      match dropPrefixQ "-sub-".data (r1.dropWhile Char.isDigit) with
      | none => false
      | some r3 =>
        if (r3.takeWhile Char.isDigit).isEmpty then false
        else
          match r3.dropWhile Char.isDigit with
          | '/' :: _ => true
          | _ => false

/-- The language the source's regex actually accepts, as a declarative
decomposition: literal `https://linkkf.live/player/v`, a nonempty digit run,
`-sub-`, a nonempty digit run, a mandatory `/`, then anything. -/
def linkkfPlayerPattern (url : String) : Prop :=
  ∃ d1 d2 rest : List Char,
    url.data = "https://linkkf.live/player/v".data ++ d1 ++ "-sub-".data ++
      d2 ++ '/' :: rest ∧
    d1 ≠ [] ∧ (∀ c ∈ d1, c.isDigit) ∧ d2 ≠ [] ∧ (∀ c ∈ d2, c.isDigit)

/-- The language the claim describes: any scheme, any host, path
`/player/v<digits>-sub-<digits>`, trailing slash optional. -/
def specClaimedPattern (url : String) : Prop :=
  ∃ scheme host d1 d2 rest : List Char,
    url.data = scheme ++ "://".data ++ host ++ "/player/v".data ++ d1 ++
      "-sub-".data ++ d2 ++ rest ∧
    scheme ≠ [] ∧ host ≠ [] ∧
    d1 ≠ [] ∧ (∀ c ∈ d1, c.isDigit) ∧ d2 ≠ [] ∧ (∀ c ∈ d2, c.isDigit) ∧
    (rest = [] ∨ ∃ t, rest = '/' :: t)

/-! ### Candidate probing (`extract_video_info`, constructed-URL fallbacks)

Network probes are abstracted as an oracle from a URL to a probe response:
an exception (`err`, swallowed by the `except: continue` arms) or a status
code with an optional `Location` header. -/

/-- Outcome of one `session.head(...)` probe. -/
inductive ProbeResp where
  | err : ProbeResp
  | ok : Nat → Option String → ProbeResp

/-- Frame-URL candidate probing (source lines 188–210): accept the candidate
on status 200; on 301/302 accept the `Location` value outright whenever it is
present and nonempty — no domain or shape validation; anything else, or an
exception, moves to the next candidate. -/
def probeFrameCandidates (oracle : String → ProbeResp) : List String → Option String
  | [] => none
  | c :: rest =>
    match oracle c with
    | .err => probeFrameCandidates oracle rest
    | .ok status loc =>
      if status = 200 then some c
      else if status = 301 ∨ status = 302 then
        match loc with
        | some l => if l = "" then probeFrameCandidates oracle rest else some l
        | none => probeFrameCandidates oracle rest
      else probeFrameCandidates oracle rest

/-- The rejected-redirect domain list of the manifest-URL probe. -/
def invalidDomains : List String :=
  ["google.com", "microsoft.com", "amazon.com", "cloudflare.com"]

/-- `any(domain in redirect_url.lower() for domain in invalid_domains)`. -/
def redirectBlockedDomain (l : String) : Bool :=
  invalidDomains.any (fun d => hasSub d.data (pyLower l.data))

/-- `'.m3u8' in redirect_url or 'myani.app' in redirect_url or 'imgkr' in
redirect_url`. -/
def redirectLooksM3u8 (l : String) : Bool :=
  containsStr l ".m3u8" || containsStr l "myani.app" || containsStr l "imgkr"

/-- One iteration of the manifest-URL candidate loop (source lines 380–421):
accept the candidate on status 200; on 301/302 with a nonempty `Location`,
reject redirects into the invalid-domain list, reject redirects that do not
look like an M3U8 location, then re-probe the redirect target and accept it
only on status 200; `none` means fall through to the next candidate. -/
def manifestProbeStep (oracle : String → ProbeResp) (c : String) : Option String :=
  match oracle c with
  | .err => none
  | .ok status loc =>
    if status = 200 then some c
    else if status = 301 ∨ status = 302 then
      match loc with
      | some l =>
        if l = "" then none
        else if redirectBlockedDomain l then none
        else if !redirectLooksM3u8 l then none
        else
          match oracle l with
          | .ok s2 _ => if s2 = 200 then some l else none
          | .err => none
      | none => none
    else none

/-- Manifest-URL candidate probing: first candidate whose iteration accepts
wins. -/
def probeManifestCandidates (oracle : String → ProbeResp) : List String → Option String
  | [] => none
  | c :: rest =>
    match manifestProbeStep oracle c with
    | some u => some u
    | none => probeManifestCandidates oracle rest

/-! ### Manifest fetch (`download_m3u8_segments_advanced`, method 1 and 2)

The fetch abstracts `session.get` as an oracle from a request description
(identity profile, computed Origin, referer, optional spoofed country) to an
optional HTTP response (`none` = exception, swallowed by `continue`). The
randomized `X-Forwarded-For`/`CF-RAY` values of the bypass pass carry no
decision content and are omitted from the request description. -/

/-- An identity profile from the `browser_profiles` catalog. -/
structure BProfile where
  name : String
  userAgent : String
  acceptLanguage : String
deriving DecidableEq

/-- The first catalog entry, reused by the bypass pass (`browser_profiles[0]`). -/
def chromeProfile : BProfile :=
  ⟨"Chrome Windows",
   "Mozilla/5.0 (Windows NT 10.0; Win64; x64) AppleWebKit/537.36 (KHTML, like Gecko) Chrome/131.0.0.0 Safari/537.36",
   "ko-KR,ko;q=0.9,en;q=0.8"⟩

/-- The identity catalog, in order. -/
def browser_profiles : List BProfile :=
  [chromeProfile,
   ⟨"Firefox Windows",
    "Mozilla/5.0 (Windows NT 10.0; Win64; x64; rv:133.0) Gecko/20100101 Firefox/133.0",
    "ko-KR,ko;q=0.8,en-US;q=0.5,en;q=0.3"⟩,
   ⟨"Safari macOS",
    "Mozilla/5.0 (Macintosh; Intel Mac OS X 10_15_7) AppleWebKit/605.1.15 (KHTML, like Gecko) Version/17.0 Safari/605.1.15",
    "ko-KR,ko;q=0.9,en;q=0.8"⟩,
   ⟨"VLC Player",
    "VLC media player - version 3.0.18 Vetinari - (c) 1996-2022 the VideoLAN team",
    "ko-KR,ko;q=0.9,en;q=0.8"⟩,
   ⟨"FFmpeg", "Lavf/58.76.100", "ko-KR,ko;q=0.9,en;q=0.8"⟩]

/-- Country codes of the CloudFlare-bypass pass, in order. -/
def cfCountries : List String := ["KR", "US", "JP", "SG"]

/-- One manifest-fetch request: the profile whose headers are sent, the
Origin computed from the manifest URL, the referer, and the spoofed country
of a bypass attempt (`none` in the primary pass). -/
structure FetchAttempt where
  profile : BProfile
  origin : String
  referer : Option String
  cfCountry : Option String
deriving DecidableEq

/-- An HTTP response as the fetch classifies it. -/
structure HttpResp where
  status : Nat
  body : String
deriving DecidableEq

/-- Primary pass: each catalog profile in order, plain headers. -/
def primaryAttempts (m3u8Url : String) (referer : Option String) : List FetchAttempt :=
  browser_profiles.map (fun p => ⟨p, urlOrigin m3u8Url, referer, none⟩)

/-- Bypass pass: the first profile, once per country code. -/
def bypassAttempts (m3u8Url : String) (referer : Option String) : List FetchAttempt :=
  cfCountries.map (fun c => ⟨chromeProfile, urlOrigin m3u8Url, referer, some c⟩)

/-- All attempts of the fetch, primary pass before bypass pass. -/
def manifestAttempts (m3u8Url : String) (referer : Option String) : List FetchAttempt :=
  primaryAttempts m3u8Url referer ++ bypassAttempts m3u8Url referer

/-- `detect_content_type` from the source: lower-case, strip, then classify
as `M3U8` / `HTML` / `BLOCKED` / `UNKNOWN` in that order. -/
def detect_content_type (content : String) : String :=
  let cl := pyStrip (pyLower content.data)
  if "#extm3u".data.isPrefixOf cl then "M3U8"
  else if "<!doctype html".data.isPrefixOf cl || "<html".data.isPrefixOf cl then "HTML"
  else if hasSub "google.com".data cl || hasSub "cloudflare".data cl then "BLOCKED"
  else "UNKNOWN"

/-- An attempt is accepted iff the request does not raise, returns
status 200 and its body is classified `M3U8`. -/
def attemptAccepted (oracle : FetchAttempt → Option HttpResp) (a : FetchAttempt) : Bool :=
  match oracle a with
  | none => false
  | some r => r.status == 200 && detect_content_type r.body == "M3U8"

/-- The manifest fetch: the body of the first accepted attempt, `none` when
both passes exhaust. -/
def fetchManifestText (oracle : FetchAttempt → Option HttpResp)
    (m3u8Url : String) (referer : Option String) : Option String :=
  (List.find? (attemptAccepted oracle) (manifestAttempts m3u8Url referer)).map
    (fun a => match oracle a with | some r => r.body | none => "")

/-! ### Frame-URL resolution (`extract_video_info`, steps 1–4)

A fetched player page is abstracted to the `string` values of its scripts
and the `src` attributes of its iframes. The fallback regex scan is the
first pattern `["']([^"']*(?:myani\.app|sub3\.top|\.php)[^"']*)["']` —
its quoted capture is the maximal quote-free run containing a marker; the
two further patterns only match strings this one already matches, so the
first hit is its first hit. -/

/-- The abstracted player page. -/
structure PageModel where
  scripts : List String
  iframeSrcs : List (Option String)

/-- Quote characters of the regex class (`"` and the apostrophe). -/
def isQuoteChar (c : Char) : Bool := c = Char.ofNat 34 || c = Char.ofNat 39

/-- The iframe host/extension markers. -/
def iframeMarkers : List String := ["myani.app", "sub3.top", ".php"]

/-- First quote-delimited run containing one of the markers, scanning left
to right (fuel-driven on the text length so the kernel can evaluate it). -/
def firstQuotedAux (markers : List String) : Nat → List Char → Option String
  | 0, _ => none
  | _ + 1, [] => none
  | fuel + 1, c :: rest =>
    if isQuoteChar c then
      match rest.dropWhile (fun d => !isQuoteChar d) with
      | [] => none
      | _ :: _ =>
        if markers.any (fun m => hasSub m.data (rest.takeWhile (fun d => !isQuoteChar d)))
        then some (String.mk (rest.takeWhile (fun d => !isQuoteChar d)))
        else firstQuotedAux markers fuel (rest.dropWhile (fun d => !isQuoteChar d))
    else firstQuotedAux markers fuel rest

/-- First quoted marker-bearing string in a script text. -/
def firstQuotedWithMarker (markers : List String) (s : List Char) : Option String :=
  firstQuotedAux markers s.length s

/-- The `player_post` slice extraction (source lines 129–138): only runs
when `.click` occurs in the script; takes the text from 13 characters past
the `player_post` occurrence after it, up to one character before the next
comma, and strips quote characters from both ends. The empty string stands
for Python's falsy "nothing extracted". -/
def extract_player_post (script : List Char) : String :=
  let cp := pyFind script ".click".data 0
  if cp ≠ -1 then
    let start := pyFind script "player_post".data cp.toNat + 13
    let pend := pyFind script ",".data start.toNat - 1
    String.mk (pyStripChars [Char.ofNat 34, Char.ofNat 39] (pySlice script start pend))
  else ""

/-- The first script whose text contains `player_post`. -/
def findPlayerScript (scripts : List String) : Option String :=
  scripts.find? (fun s => hasSub "player_post".data s.data)

/-- Step 2: first iframe whose `src` is present, truthy and carries a
marker. -/
def iframeFromElements (srcs : List (Option String)) : Option String :=
  match srcs.find? (fun o => match o with
      | some s => !s.data.isEmpty &&
          (containsStr s "myani.app" || containsStr s "sub3.top" || containsStr s ".php")
      | none => false) with
  | some (some s) => some s
  | _ => none

/-- Step 3: regex-scan every script for a quoted marker-bearing string. -/
def iframeFromScripts (scripts : List String) : Option String :=
  scripts.findSome? (fun s => firstQuotedWithMarker iframeMarkers s.data)

/-- Step 4's constructed frame-URL candidates (source lines 180–186). -/
def frameCandidates (videoId subId : String) : List String :=
  ["https://play.sub3.top/b2/kn1.php?url=" ++ videoId ++ "n" ++ subId ++ "&id",
   "https://g2.myani.app/player.php?url=" ++ videoId ++ "s" ++ subId,
   "https://play.sub3.top/player.php?url=" ++ videoId ++ "s" ++ subId,
   "https://play.sub3.top/b2/kn1.php?url=" ++ videoId ++ "s" ++ subId ++ "&id",
   "https://g2.myani.app/b2/kn1.php?url=" ++ videoId ++ "n" ++ subId ++ "&id"]

/-- The frame-URL resolution cascade: `player_post` slice, iframe elements,
script scan, then constructed-candidate probing; the empty string models the
final `None`. -/
def resolveFrameUrl (oracle : String → ProbeResp) (page : PageModel)
    (videoId subId : String) : String :=
  let viaPost : String :=
    match findPlayerScript page.scripts with
    | some ps => extract_player_post ps.data
    | none => ""
  if viaPost ≠ "" then viaPost
  else
    match iframeFromElements page.iframeSrcs with
    | some s => s
    | none =>
      match iframeFromScripts page.scripts with
      | some s => s
      | none =>
        match probeFrameCandidates oracle (frameCandidates videoId subId) with
        | some s => s
        | none => ""

/-- `re.search(r'[?&]url=([^&]+)', iframe_url)`: leftmost `?`/`&` followed
by `url=` and a nonempty run of non-`&` characters; scanning resumes at the
next position when the run is empty. -/
def extractUrlParam : List Char → Option String
  | [] => none
  | c :: rest =>
    if (c = '?' || c = '&') && "url=".data.isPrefixOf rest then
      if ((rest.drop 4).takeWhile (· ≠ '&')).isEmpty then extractUrlParam rest
      else some (String.mk ((rest.drop 4).takeWhile (· ≠ '&')))
    else extractUrlParam rest

/-! ### Title sanitization (`extract_video_info`, lines 428–441) -/

/-- The character class `[<>:"/\\|?*]` replaced by `_`. -/
def illegalChars : List Char :=
  ['<', '>', ':', Char.ofNat 34, '/', '\\', '|', '?', '*']

/-- `re.sub(p+, rep)`: collapse maximal runs of `p`-characters to a single
`rep` (fuel-driven on length for kernel evaluation). -/
def collapseRunsAux (p : Char → Bool) (rep : Char) : Nat → List Char → List Char
  | 0, _ => []
  | _ + 1, [] => []
  | fuel + 1, c :: rest =>
    if p c then rep :: collapseRunsAux p rep fuel (rest.dropWhile p)
    else c :: collapseRunsAux p rep fuel rest

/-- Collapse maximal `p`-runs to one `rep`. -/
def collapseRuns (p : Char → Bool) (rep : Char) (s : List Char) : List Char :=
  collapseRunsAux p rep s.length s

/-- `re.sub(r'\s*Linkkf\s*$', '', s, flags=IGNORECASE)`: if the text ends in
`Linkkf` (case-insensitive) up to trailing whitespace, remove that suffix
together with the whitespace around it; otherwise leave the text unchanged. -/
def stripLinkkfTag (s : List Char) : List Char :=
  if "linkkf".data.isSuffixOf (pyLower ((s.reverse.dropWhile isPyWs).reverse)) then
    ((((s.reverse.dropWhile isPyWs).reverse).take
        ((s.reverse.dropWhile isPyWs).reverse.length - 6)).reverse.dropWhile isPyWs).reverse
  else s

/-- `re.sub(r'-자막$', '', s)`: drop a literal `-자막` suffix. -/
def stripJamakTag (s : List Char) : List Char :=
  if "-자막".data.isSuffixOf s then s.take (s.length - 3) else s

/-- The full title-sanitization pipeline from the source, in step order:
replace illegal path characters by `_`; collapse `_`-runs and strip edge
`_`; strip a trailing `Linkkf` branding tag and whitespace; strip a trailing
`-자막` subtitle marker and whitespace; remove apostrophes; collapse
whitespace runs to single spaces; truncate to 100 characters; strip edges. -/
def sanitize_title (title : String) : String :=
  let s1 := title.data.map (fun c => if illegalChars.contains c then '_' else c)
  let s2 := pyStripChars ['_'] (collapseRuns (fun c => c = '_') '_' s1)
  let s4 := pyStrip (stripLinkkfTag s2)
  let s6 := pyStrip (stripJamakTag s4)
  let s7 := s6.filter (fun c => !(c = Char.ofNat 39))
  let s8 := collapseRuns isPyWs ' ' s7
  String.mk (pyStrip (s8.take 100))

/-! ### Manifest-URL candidate construction (`extract_video_info`,
lines 312–377): a domain-keyed base catalog plus suffix-mutation extension -/

/-- The domain-keyed base candidate list (source lines 317–355), keyed on
which marker occurs in the iframe URL's domain, with the `sub3.top` branch's
two inline `n1`-conditional entries. -/
def baseCandidates (dom pdu : String) : List String :=
  if containsStr dom "myani.app" then
    ["https://m3k.myani.app/b2nss4/m3u8/" ++ pdu ++ ".m3u8",
     "https://m3k.myani.app/b2k37/m3u8/" ++ pdu ++ ".m3u8",
     "https://m3k.myani.app/b2k28/m3u8/" ++ pdu ++ ".m3u8",
     "https://m3k.myani.app/b2/m3u8/" ++ pdu ++ ".m3u8",
     "https://g2.myani.app/hls/" ++ pdu ++ "/index.m3u8",
     "https://g2.myani.app/stream/" ++ pdu ++ "/index.m3u8"]
  else if containsStr dom "sub3.top" then
    ["https://bn1.imgkr4.top/file/k0625n1/" ++ pdu ++ "/index.m3u8",
     "https://bn2.imgkr4.top/file/k0625n1/" ++ pdu ++ "/index.m3u8",
     "https://bn3.imgkr4.top/file/k0625n1/" ++ pdu ++ "/index.m3u8",
     "https://play.sub3.top/hls/" ++ pdu ++ "/index.m3u8",
     "https://play.sub3.top/stream/" ++ pdu ++ "/index.m3u8",
     "https://sub3.top/hls/" ++ pdu ++ "/index.m3u8",
     "https://m3k.myani.app/b2nss4/m3u8/" ++ pdu ++ ".m3u8",
     "https://g2.myani.app/hls/" ++ pdu ++ "/index.m3u8",
     (if containsStr pdu "n1" then
        "https://m3k.myani.app/b2nss4/m3u8/" ++
          (if pyEndsAny pdu ["n1", "s1", "n2", "s2"] then pyDropLastN 2 pdu else pdu) ++
          "s1.m3u8"
      else
        "https://m3k.myani.app/b2nss4/m3u8/" ++
          (if pyEndsAny pdu ["n1", "s1", "n2", "s2"] then pyDropLastN 2 pdu else pdu) ++
          "n1.m3u8"),
     (if containsStr pdu "n1" then
        "https://bn1.imgkr4.top/file/k0625n1/" ++
          (if pyEndsAny pdu ["n1", "s1", "n2", "s2"] then pyDropLastN 2 pdu else pdu) ++
          "s1/index.m3u8"
      else
        "https://bn1.imgkr4.top/file/k0625n1/" ++
          (if pyEndsAny pdu ["n1", "s1", "n2", "s2"] then pyDropLastN 2 pdu else pdu) ++
          "n1/index.m3u8")]
  else
    ["https://m3k.myani.app/b2nss4/m3u8/" ++ pdu ++ ".m3u8",
     "https://bn1.imgkr4.top/file/k0625n1/" ++ pdu ++ "/index.m3u8",
     "https://bn2.imgkr4.top/file/k0625n1/" ++ pdu ++ "/index.m3u8",
     "https://bn3.imgkr4.top/file/k0625n1/" ++ pdu ++ "/index.m3u8",
     "https://play.sub3.top/hls/" ++ pdu ++ "/index.m3u8",
     "https://g2.myani.app/hls/" ++ pdu ++ "/index.m3u8",
     "https://m3k.myani.app/b2k37/m3u8/" ++ pdu ++ ".m3u8"]

/-- The recognized `n<digit>` suffixes (source line 358). -/
def nSuffixes : List String := ["n1", "n2", "n3", "n4", "n5", "n6"]

/-- The recognized `s<digit>` suffixes (source line 370). -/
def sSuffixes : List String := ["s1", "s2", "s3", "s4", "s5", "s6"]

/-- `player_data_url[:-2] + c + player_data_url[-1]`: swap the suffix class
letter, keeping the digit. -/
def swapSuffix (c : String) (pdu : String) : String :=
  pyDropLastN 2 pdu ++ c ++ pyLastChar pdu

/-- The suffix-mutation extension (source lines 357–377): a data id ending
in a recognized `n<digit>` adds seven `s`-variant candidates; one ending in
a recognized `s<digit>` adds three `n`-variant candidates; otherwise nothing
is added. -/
def mutatedCandidates (pdu : String) : List String :=
  if pyEndsAny pdu nSuffixes then
    ["https://m3k.myani.app/b2nss4/m3u8/" ++ swapSuffix "s" pdu ++ ".m3u8",
     "https://m3k.myani.app/b2k37/m3u8/" ++ swapSuffix "s" pdu ++ ".m3u8",
     "https://m3k.myani.app/b2k28/m3u8/" ++ swapSuffix "s" pdu ++ ".m3u8",
     "https://m3k.myani.app/b2/m3u8/" ++ swapSuffix "s" pdu ++ ".m3u8",
     "https://g2.myani.app/hls/" ++ swapSuffix "s" pdu ++ "/index.m3u8",
     "https://bi1.imgkr2.top/file/ns2bb4/" ++ swapSuffix "s" pdu ++ "/index.m3u8",
     "https://bi2.imgkr2.top/file/ns2bb4/" ++ swapSuffix "s" pdu ++ "/index.m3u8"]
  else if pyEndsAny pdu sSuffixes then
    ["https://bn1.imgkr4.top/file/k0625n1/" ++ swapSuffix "n" pdu ++ "/index.m3u8",
     "https://play.sub3.top/hls/" ++ swapSuffix "n" pdu ++ "/index.m3u8",
     "https://play.sub3.top/stream/" ++ swapSuffix "n" pdu ++ "/index.m3u8"]
  else []

/-- The complete manifest-URL candidate list for a data id. -/
def manifestCandidates (dom pdu : String) : List String :=
  baseCandidates dom pdu ++ mutatedCandidates pdu

/-! ### Theorems: order properties of `strLt` -/

theorem strLt_nil_cons (c : Char) (cs : List Char) : strLt [] (c :: cs) = true := rfl

theorem strLt_none_nil (x : List Char) : strLt x [] = false := by
  cases x <;> rfl

theorem strLt_cons (a b : Char) (as bs : List Char) :
    strLt (a :: as) (b :: bs) =
      if a < b then true else if b < a then false else strLt as bs := rfl

theorem strLt_asymm : ∀ {x y : List Char}, strLt x y = true → strLt y x = true → False := by
  intro x
  induction x with
  | nil =>
    intro y h1 h2
    cases y with
    | nil => simp [strLt] at h1
    | cons b bs => rw [strLt_none_nil] at h2; cases h2
  | cons a as ih =>
    intro y h1 h2
    cases y with
    | nil => rw [strLt_none_nil] at h1; cases h1
    | cons b bs =>
      rw [strLt_cons] at h1 h2
      rcases lt_trichotomy a b with hab | hab | hab
      · rw [if_neg (asymm hab), if_pos hab] at h2; cases h2
      · subst hab
        rw [if_neg (lt_irrefl a)] at h1 h2
        rw [if_neg (lt_irrefl a)] at h1 h2
        exact ih h1 h2
      · rw [if_neg (asymm hab), if_pos hab] at h1; cases h1

theorem strLt_trans : ∀ {x y z : List Char},
    strLt x y = true → strLt y z = true → strLt x z = true := by
  intro x
  induction x with
  | nil =>
    intro y z h1 h2
    cases y with
    | nil => simp [strLt] at h1
    | cons b bs =>
      cases z with
      | nil => rw [strLt_none_nil] at h2; cases h2
      | cons c cs => rfl
  | cons a as ih =>
    intro y z h1 h2
    cases y with
    | nil => rw [strLt_none_nil] at h1; cases h1
    | cons b bs =>
      cases z with
      | nil => rw [strLt_none_nil] at h2; cases h2
      | cons c cs =>
        rw [strLt_cons] at h1 h2 ⊢
        rcases lt_trichotomy a b with hab | hab | hab
        · rcases lt_trichotomy b c with hbc | hbc | hbc
          · rw [if_pos (lt_trans hab hbc)]
          · subst hbc; rw [if_pos hab]
          · rw [if_neg (asymm hbc), if_pos hbc] at h2; cases h2
        · subst hab
          rw [if_neg (lt_irrefl a), if_neg (lt_irrefl a)] at h1
          rcases lt_trichotomy a c with hac | hac | hac
          · rw [if_pos hac]
          · subst hac
            rw [if_neg (lt_irrefl a), if_neg (lt_irrefl a)] at h2 ⊢
            exact ih h1 h2
          · rw [if_neg (asymm hac), if_pos hac] at h2; cases h2
        · rw [if_neg (asymm hab), if_pos hab] at h1; cases h1

theorem strLt_connex : ∀ {x y : List Char},
    strLt x y = false → strLt y x = false → x = y := by
  intro x
  induction x with
  | nil =>
    intro y h1 _
    cases y with
    | nil => rfl
    | cons b bs => rw [strLt_nil_cons] at h1; cases h1
  | cons a as ih =>
    intro y h1 h2
    cases y with
    | nil => rw [strLt_nil_cons] at h2; cases h2
    | cons b bs =>
      rw [strLt_cons] at h1 h2
      rcases lt_trichotomy a b with hab | hab | hab
      · rw [if_pos hab] at h1; cases h1
      · subst hab
        rw [if_neg (lt_irrefl a), if_neg (lt_irrefl a)] at h1 h2
        rw [ih h1 h2]
      · rw [if_pos hab] at h2; cases h2

theorem nameLe_total : ∀ a b : SegRes, nameLe a b ∨ nameLe b a := by
  intro a b
  unfold nameLe
  by_cases h : strLt (segName b) (segName a) = true
  · right
    by_contra h2
    exact strLt_asymm (by simpa using h2) h
  · left; simpa using h

theorem nameLe_trans : ∀ a b c : SegRes, nameLe a b → nameLe b c → nameLe a c := by
  intro a b c hab hbc
  unfold nameLe at *
  by_contra h
  have hca : strLt (segName c) (segName a) = true := by simpa using h
  by_cases h2 : strLt (segName b) (segName c) = true
  · have := strLt_trans h2 hca
    rw [hab] at this; cases this
  · have h2' : strLt (segName b) (segName c) = false := by simpa using h2
    have hcb : segName c = segName b := strLt_connex hbc h2'
    rw [hcb, hab] at hca; cases hca

/-! ### Theorems: zero-padded decimal file names order like their indices -/

theorem dig_lt_dig {a b : Nat} (h : a < b) (hb : b < 10) : dig a < dig b := by
  interval_cases b <;> interval_cases a <;> decide

theorem strLt_append_left (p x y : List Char) :
    strLt (p ++ x) (p ++ y) = strLt x y := by
  induction p with
  | nil => rfl
  | cons c cs ih =>
    simp only [List.cons_append, strLt_cons, if_neg (lt_irrefl c), ih]

theorem padK_strLt (k : Nat) : ∀ (i j : Nat) (e1 e2 : List Char), i < j → j < 10 ^ k →
    strLt (padK k i ++ e1) (padK k j ++ e2) = true := by
  induction k with
  | zero =>
    intro i j _ _ hij hj
    exact absurd hij (by omega)
  | succ k ih =>
    intro i j e1 e2 hij hj
    have hden : 0 < 10 ^ k := pow_pos (by norm_num) k
    have hb : j / 10 ^ k < 10 := by
      rw [Nat.div_lt_iff_lt_mul hden]
      have : (10:ℕ) ^ (k + 1) = 10 * 10 ^ k := by ring
      omega
    have hab : i / 10 ^ k ≤ j / 10 ^ k := Nat.div_le_div_right (le_of_lt hij)
    rcases lt_or_eq_of_le hab with hlt | heq
    · simp only [padK, List.cons_append, strLt_cons, if_pos (dig_lt_dig hlt hb)]
    · have hmod : i % 10 ^ k < j % 10 ^ k := by
        have d1 := Nat.div_add_mod i (10 ^ k)
        have d2 := Nat.div_add_mod j (10 ^ k)
        rw [heq] at d1
        set t := 10 ^ k * (j / 10 ^ k) with ht
        omega
      have hmodb : j % 10 ^ k < 10 ^ k := Nat.mod_lt _ hden
      have hrec := ih (i % 10 ^ k) (j % 10 ^ k) e1 e2 hmod hmodb
      simp only [padK, List.cons_append, strLt_cons, heq, if_neg (lt_irrefl _), hrec]

theorem segName_strLt {a b : SegRes} (ha : a.index < 100000) (hb : b.index < 100000)
    (h : a.index < b.index) : strLt (segName a) (segName b) = true := by
  unfold segName pyFormat05
  rw [if_pos ha, if_pos hb, strLt_append_left]
  exact padK_strLt 5 _ _ _ _ h (by simpa using hb)

/-! ### Theorems: claims C1 and C2 -/

/-- C1: for a segment download session with `N ≥ 1` manifest entries of which
`S` fetch units succeed, the completion step proceeds to assembly exactly when
`S/N ≥ 0.6` (the boundary `S/N = 0.6` proceeds), and otherwise fails with the
insufficient-success-ratio outcome, never reaching the merge step. -/
theorem c1_success_ratio_gate (results : List (Option SegRes)) (h : results ≠ []) :
    ((∃ fs, completeSession results = SessionStep.assemble fs) ↔
      (3 / 5 : ℚ) ≤ ((results.filterMap id).length : ℚ) / (results.length : ℚ)) ∧
    (completeSession results = SessionStep.insufficientRatio ↔
      ((results.filterMap id).length : ℚ) / (results.length : ℚ) < 3 / 5) := by
  have hN : (0 : ℚ) < (results.length : ℚ) := by
    have : 0 < results.length := List.length_pos.mpr h
    exact_mod_cast this
  by_cases hlt : ((results.filterMap id).length : ℚ) / (results.length : ℚ) < 3 / 5
  · have hcs : completeSession results = SessionStep.insufficientRatio := by
      unfold completeSession
      rw [if_pos hlt]
    refine ⟨⟨?_, ?_⟩, ⟨fun _ => hlt, fun _ => hcs⟩⟩
    · rintro ⟨fs, hfs⟩
      rw [hcs] at hfs
      cases hfs
    · intro hge
      exact absurd hlt (not_lt.mpr hge)
  · have hge := not_lt.mp hlt
    have hS : (results.filterMap id).length ≠ 0 := by
      intro h0
      rw [h0] at hge
      norm_num at hge
    have hcs : completeSession results =
        SessionStep.assemble (sortByName (results.filterMap id)) := by
      unfold completeSession
      rw [if_neg hlt, if_neg hS]
    refine ⟨⟨fun _ => hge, fun _ => ⟨_, hcs⟩⟩, ⟨?_, fun hlt' => absurd hlt' hlt⟩⟩
    intro hcontra
    rw [hcs] at hcontra
    cases hcontra

/-- Witness for C1 at the boundary: 3 successes out of 5 entries is exactly
ratio 0.6 and proceeds to assembly. -/
theorem c1_success_ratio_gate_witness :
    ([some ⟨0, "a.ts"⟩, some ⟨1, "a.ts"⟩, some ⟨2, "a.ts"⟩, none, none] :
        List (Option SegRes)) ≠ [] ∧
    (∃ fs, completeSession
        [some ⟨0, "a.ts"⟩, some ⟨1, "a.ts"⟩, some ⟨2, "a.ts"⟩, none, none] =
      SessionStep.assemble fs) := by
  refine ⟨by simp, ?_⟩
  refine (c1_success_ratio_gate _ (by simp)).1.mpr ?_
  norm_num [List.filterMap]

/-- C2 (amended): for every download session whose manifest has at most
100000 entries (every sequenceIndex below 100000), the list of local segment
files handed to the merge step is ascending in sequenceIndex and is a
permutation of the successful results, whatever the completion order; with
100001 or more entries the file-name sort diverges from sequenceIndex order
(see the counterexample). -/
theorem c2_assembler_order (results : List (Option SegRes)) (fs : List SegRes)
    (hres : completeSession results = SessionStep.assemble fs)
    (hidx : ∀ r : SegRes, some r ∈ results → r.index < 100000) :
    fs.Pairwise (fun a b => a.index ≤ b.index) ∧ fs.Perm (results.filterMap id) := by
  haveI : IsTotal SegRes nameLe := ⟨nameLe_total⟩
  haveI : IsTrans SegRes nameLe := ⟨nameLe_trans⟩
  have hfs : fs = sortByName (results.filterMap id) := by
    simp only [completeSession] at hres
    split_ifs at hres
    cases hres
    rfl
  subst hfs
  refine ⟨?_, List.perm_insertionSort _ _⟩
  have hsorted : (sortByName (results.filterMap id)).Pairwise nameLe :=
    List.sorted_insertionSort nameLe _
  refine hsorted.imp_of_mem ?_
  intro a b hma hmb hle
  have hmem : ∀ {r : SegRes}, r ∈ sortByName (results.filterMap id) → r.index < 100000 := by
    intro r hr
    have : r ∈ results.filterMap id := (List.mem_insertionSort nameLe).mp hr
    obtain ⟨o, ho, hor⟩ := List.mem_filterMap.mp this
    cases o with
    | none => cases hor
    | some v =>
      have : v = r := by simpa using hor
      subst this
      exact hidx _ ho
  by_contra hgt
  have hba : b.index < a.index := by omega
  have := segName_strLt (hmem hmb) (hmem hma) hba
  rw [hle] at this
  cases this

/-- Witness for C2 (amended): three successes arriving in completion order
2, 0, 1 are assembled ascending by sequenceIndex. -/
theorem c2_assembler_order_witness :
    ([⟨0, "a.ts"⟩, ⟨1, "b.jpg"⟩, ⟨2, "c.png"⟩] : List SegRes).Pairwise
      (fun a b => a.index ≤ b.index) ∧
    ([⟨0, "a.ts"⟩, ⟨1, "b.jpg"⟩, ⟨2, "c.png"⟩] : List SegRes).Perm
      (List.filterMap id
        [some ⟨2, "c.png"⟩, some ⟨0, "a.ts"⟩, none, some ⟨1, "b.jpg"⟩]) := by
  have hres : completeSession
      [some ⟨2, "c.png"⟩, some ⟨0, "a.ts"⟩, none, some ⟨1, "b.jpg"⟩] =
      SessionStep.assemble [⟨0, "a.ts"⟩, ⟨1, "b.jpg"⟩, ⟨2, "c.png"⟩] := by
    have h1 : ¬(((List.filterMap id
        [some (⟨2, "c.png"⟩ : SegRes), some ⟨0, "a.ts"⟩, none,
          some ⟨1, "b.jpg"⟩]).length : ℚ) /
        (([some (⟨2, "c.png"⟩ : SegRes), some ⟨0, "a.ts"⟩, none,
          some ⟨1, "b.jpg"⟩] : List (Option SegRes)).length : ℚ) < 3 / 5) := by
      have e1 : (List.filterMap id
          [some (⟨2, "c.png"⟩ : SegRes), some ⟨0, "a.ts"⟩, none,
            some ⟨1, "b.jpg"⟩]).length = 3 := rfl
      have e2 : ([some (⟨2, "c.png"⟩ : SegRes), some ⟨0, "a.ts"⟩, none,
          some ⟨1, "b.jpg"⟩] : List (Option SegRes)).length = 4 := rfl
      rw [e1, e2]
      norm_num
    simp only [completeSession]
    rw [if_neg h1, if_neg (by decide :
      ¬(List.filterMap id [some (⟨2, "c.png"⟩ : SegRes), some ⟨0, "a.ts"⟩, none,
        some ⟨1, "b.jpg"⟩]).length = 0)]
    decide
  refine c2_assembler_order
    [some ⟨2, "c.png"⟩, some ⟨0, "a.ts"⟩, none, some ⟨1, "b.jpg"⟩] _ hres ?_
  intro r hr
  simp only [List.mem_cons, List.not_mem_nil, or_false, false_or,
    Option.some.injEq, reduceCtorEq] at hr
  rcases hr with h | h | h <;> subst h <;> decide

/-- C2 counterexample: with 100001 segment fetch units (indices 0 … 100000,
all successful, completion order irrelevant), the file-name sort places
`segment_100000.ts` before `segment_10001.ts`, so the list handed to the
assembler is not ascending in sequenceIndex — the claim's universal statement
over every N fails. -/
theorem c2_counterexample :
    ¬ (sortByName res100001).Pairwise (fun a b : SegRes => a.index ≤ b.index) := by
  intro hpair
  haveI : IsTotal SegRes nameLe := ⟨nameLe_total⟩
  haveI : IsTrans SegRes nameLe := ⟨nameLe_trans⟩
  have hsorted : (sortByName res100001).Pairwise nameLe :=
    List.sorted_insertionSort nameLe res100001
  have hperm := List.perm_insertionSort nameLe res100001
  have ha : (⟨10001, "x.ts"⟩ : SegRes) ∈ sortByName res100001 :=
    hperm.mem_iff.mpr (List.mem_map.mpr ⟨10001, List.mem_range.mpr (by norm_num), rfl⟩)
  have hb : (⟨100000, "x.ts"⟩ : SegRes) ∈ sortByName res100001 :=
    hperm.mem_iff.mpr (List.mem_map.mpr ⟨100000, List.mem_range.mpr (by norm_num), rfl⟩)
  have hand := hsorted.and hpair
  have hsym : Symmetric (fun x y : SegRes =>
      (nameLe x y ∧ x.index ≤ y.index) ∨ (nameLe y x ∧ y.index ≤ x.index)) :=
    fun _ _ h => h.symm
  have hne : (⟨10001, "x.ts"⟩ : SegRes) ≠ ⟨100000, "x.ts"⟩ := by decide
  rcases List.Pairwise.forall hsym (hand.imp (fun h => Or.inl h)) ha hb hne with
    ⟨h1, _⟩ | ⟨_, h2⟩
  · have hcomp : strLt (segName ⟨100000, "x.ts"⟩) (segName ⟨10001, "x.ts"⟩) = true := by
      decide
    unfold nameLe at h1
    rw [h1] at hcomp
    cases hcomp
  · norm_num at h2

/-! ### Theorems: claims C3 and C10 -/

/-- C3: `parseManifest` assigns sequenceIndex in encounter order over the
non-comment non-empty lines (first conjunct, for every manifest and base
URL); the spec's scenario B manifest against
`https://cdn.example/path/playlist.m3u8` parses to the two expected entries
with durations `4.0` and `6.5` (= `mkRat 13 2`), relative lines being
joined to the manifest's directory; already-absolute lines pass through
unchanged (with the 5.0-second default duration when no `#EXTINF:` was
declared); root-relative lines are resolved against the manifest URL's
scheme and host. -/
theorem c3_parse_manifest :
    (∀ url text : String, (parseManifest url text).map (·.index) =
      List.range (parseManifest url text).length) ∧
    parseManifest "https://cdn.example/path/playlist.m3u8"
        "#EXTM3U\n#EXTINF:4.0,\nseg0.ts\n#EXTINF:6.5,\nseg1.ts\n" =
      [⟨0, "https://cdn.example/path/seg0.ts", 4⟩,
       ⟨1, "https://cdn.example/path/seg1.ts", mkRat 13 2⟩] ∧
    parseManifest "https://cdn.example/path/playlist.m3u8"
        "#EXTM3U\nhttps://other.example/x.ts\n" =
      [⟨0, "https://other.example/x.ts", 5⟩] ∧
    parseManifest "https://cdn.example/path/playlist.m3u8"
        "#EXTM3U\n/abs/seg.ts\n" =
      [⟨0, "https://cdn.example/abs/seg.ts", 5⟩] := by
  refine ⟨?_, by decide, by decide, by decide⟩
  intro url text
  simp only [parseManifest, List.map_map, List.length_map]
  rw [List.enum_length]
  exact List.enum_map_fst _

/-- C10: an `#EXTINF:` line whose value does not parse as a number resets the
tracked duration to the 5.0-second default for the following segment line
(second entry gets `5`, not the previously declared `3`); in general such a
line sets the tracked duration to `5` whatever it was before. -/
theorem c10_extinf_reset :
    parseManifest "https://cdn.example/path/p.m3u8"
        "#EXTM3U\n#EXTINF:3.0,\na.ts\n#EXTINF:bad,\nb.ts\n" =
      [⟨0, "https://cdn.example/path/a.ts", 3⟩,
       ⟨1, "https://cdn.example/path/b.ts", 5⟩] ∧
    (∀ cur : ℚ, extinfDuration cur ("#EXTINF:bad,".data) = 5) := by
  refine ⟨by decide, fun cur => rfl⟩

/-! ### Theorems: claim C4 -/

theorem dropPrefixQ_eq_some : ∀ {p s r : List Char},
    dropPrefixQ p s = some r ↔ s = p ++ r := by
  intro p
  induction p with
  | nil =>
    intro s r
    simp [dropPrefixQ]
  | cons ph pt ih =>
    intro s r
    cases s with
    | nil => simp [dropPrefixQ]
    | cons c cs =>
      simp only [dropPrefixQ, List.cons_append, List.cons.injEq]
      by_cases h : c = ph
      · subst h
        simp [ih]
      · simp [h]

theorem takeWhile_all_append {p : Char → Bool} {xs : List Char}
    (hx : ∀ c ∈ xs, p c = true) {y : Char} (hy : p y = false) (ys : List Char) :
    (xs ++ y :: ys).takeWhile p = xs ∧ (xs ++ y :: ys).dropWhile p = y :: ys := by
  induction xs with
  | nil => simp [List.takeWhile_cons, List.dropWhile_cons, hy]
  | cons x xt ih =>
    have hxp : p x = true := hx x (by simp)
    have iht := ih (fun c hc => hx c (by simp [hc]))
    simp [List.takeWhile_cons, List.dropWhile_cons, hxp, iht.1, iht.2]

/-- C4 (amended): `validate_url` is true iff the URL starts with the literal
prefix `https://linkkf.live/player/v` followed by digits, `-sub-`, digits and
a mandatory `/` (with anything after it) — the scheme and host are fixed
literals, not arbitrary, and the trailing slash is required, not optional. -/
theorem c4_validate_url (url : String) :
    validate_url url = true ↔ linkkfPlayerPattern url := by
  constructor
  · intro h
    unfold validate_url at h
    split at h
    · cases h
    · rename_i r1 e1
      split at h
      · cases h
      · rename_i hd1
        split at h
        · cases h
        · rename_i r3 e2
          split at h
          · cases h
          · rename_i hd2
            split at h
            · rename_i t4 e4
              refine ⟨r1.takeWhile Char.isDigit, r3.takeWhile Char.isDigit, t4,
                ?_, ?_, ?_, ?_, ?_⟩
              · have hu : url.data = "https://linkkf.live/player/v".data ++ r1 :=
                  dropPrefixQ_eq_some.mp e1
                have hr1 : r1 = r1.takeWhile Char.isDigit ++ r1.dropWhile Char.isDigit :=
                  (List.takeWhile_append_dropWhile _ _).symm
                have hr2 : r1.dropWhile Char.isDigit = "-sub-".data ++ r3 :=
                  dropPrefixQ_eq_some.mp e2
                have hr3 : r3 = r3.takeWhile Char.isDigit ++ r3.dropWhile Char.isDigit :=
                  (List.takeWhile_append_dropWhile _ _).symm
                rw [hu]
                conv_lhs => rw [hr1, hr2]
                conv_lhs => rw [hr3, e4]
                simp [List.append_assoc]
              · simpa using hd1
              · intro c hc
                exact List.mem_takeWhile_imp hc
              · simpa using hd2
              · intro c hc
                exact List.mem_takeWhile_imp hc
            · cases h
  · rintro ⟨d1, d2, rest, hurl, hd1ne, hd1dig, hd2ne, hd2dig⟩
    have hsub : ("-sub-".data : List Char) = '-' :: "sub-".data := rfl
    have e1 : dropPrefixQ "https://linkkf.live/player/v".data url.data =
        some (d1 ++ "-sub-".data ++ d2 ++ '/' :: rest) := by
      apply dropPrefixQ_eq_some.mpr
      rw [hurl]
      simp [List.append_assoc]
    have hsp1 := takeWhile_all_append (p := Char.isDigit)
      (fun c hc => hd1dig c hc) (y := '-') (by decide)
      ("sub-".data ++ (d2 ++ '/' :: rest))
    have hform1 : d1 ++ "-sub-".data ++ d2 ++ '/' :: rest =
        d1 ++ '-' :: ("sub-".data ++ (d2 ++ '/' :: rest)) := by
      rw [hsub]
      simp [List.append_assoc]
    have hsp2 := takeWhile_all_append (p := Char.isDigit)
      (fun c hc => hd2dig c hc) (y := '/') (by decide) rest
    unfold validate_url
    simp only [e1]
    rw [hform1, hsp1.1, hsp1.2]
    rw [if_neg (by simpa using hd1ne)]
    have e2 : dropPrefixQ "-sub-".data ('-' :: ("sub-".data ++ (d2 ++ '/' :: rest))) =
        some (d2 ++ '/' :: rest) := by
      apply dropPrefixQ_eq_some.mpr
      rw [hsub]
      simp
    simp only [e2]
    rw [hsp2.1, hsp2.2]
    rw [if_neg (by simpa using hd2ne)]
    rfl

/-- C4 counterexample: the claim's pattern (any scheme/host, optional
trailing slash) disagrees with the code on a foreign host with the full
pattern, and on the real host with the trailing slash omitted — both match
the claimed pattern yet `validate_url` rejects both. -/
theorem c4_counterexample :
    (specClaimedPattern "https://example.com/player/v1-sub-2/" ∧
      validate_url "https://example.com/player/v1-sub-2/" = false) ∧
    (specClaimedPattern "https://linkkf.live/player/v1-sub-2" ∧
      validate_url "https://linkkf.live/player/v1-sub-2" = false) := by
  constructor
  · refine ⟨⟨"https".data, "example.com".data, ['1'], ['2'], ['/'],
      by decide, by decide, by decide, by decide, by decide, by decide,
      by decide, Or.inr ⟨[], rfl⟩⟩, by decide⟩
  · refine ⟨⟨"https".data, "linkkf.live".data, ['1'], ['2'], [],
      by decide, by decide, by decide, by decide, by decide, by decide,
      by decide, Or.inl rfl⟩, by decide⟩

/-- Witness for C4 (amended) at a concrete accepted URL. -/
theorem c4_validate_url_witness :
    validate_url "https://linkkf.live/player/v386192-sub-1/" = true :=
  (c4_validate_url "https://linkkf.live/player/v386192-sub-1/").mpr
    ⟨"386192".data, ['1'], [], by decide, by decide, by decide, by decide,
      by decide⟩

/-! ### Theorems: claims C5, C6, C7, C9 -/

theorem manifestProbeStep_accepts {oracle : String → ProbeResp} {c u : String}
    (h : manifestProbeStep oracle c = some u) :
    u = c ∨ (redirectBlockedDomain u = false ∧ redirectLooksM3u8 u = true) := by
  unfold manifestProbeStep at h
  split at h
  · cases h
  · split at h
    · injection h with h
      exact Or.inl h.symm
    · split at h
      · split at h
        · split at h
          · cases h
          · split at h
            · cases h
            · rename_i hbl
              split at h
              · cases h
              · rename_i hlk
                split at h
                · split at h
                  · injection h with h
                    subst h
                    exact Or.inr ⟨by simpa using hbl, by simpa using hlk⟩
                  · cases h
                · cases h
        · cases h
      · cases h

/-- C5 (amended): the manifest-URL candidate probe never resolves to a
redirect target in the disallowed-domain list: any accepted URL is either a
probed candidate itself (status 200) or a redirect target that passed both
the disallowed-domain check and the looks-like-M3U8 check. The frame-URL
candidate probe performs no such validation (see the counterexample). -/
theorem c5_manifest_redirect_validation (oracle : String → ProbeResp)
    (cs : List String) (u : String)
    (h : probeManifestCandidates oracle cs = some u) :
    u ∈ cs ∨ (redirectBlockedDomain u = false ∧ redirectLooksM3u8 u = true) := by
  induction cs with
  | nil => cases h
  | cons c rest ih =>
    unfold probeManifestCandidates at h
    split at h
    · rename_i u2 hstep
      injection h with h
      subst h
      rcases manifestProbeStep_accepts hstep with hc | hp
      · exact Or.inl (hc ▸ List.mem_cons_self _ _)
      · exact Or.inr hp
    · rcases ih h with hm | hp
      · exact Or.inl (List.mem_cons_of_mem _ hm)
      · exact Or.inr hp

/-- Witness for C5 (amended): a clean redirect to an M3U8-looking target is
accepted and indeed passes both checks. -/
theorem c5_manifest_redirect_validation_witness :
    "https://ok.myani.app/x.m3u8" ∈ (["https://play.sub3.top/hls/1n1/index.m3u8"] : List String) ∨
    (redirectBlockedDomain "https://ok.myani.app/x.m3u8" = false ∧
      redirectLooksM3u8 "https://ok.myani.app/x.m3u8" = true) :=
  c5_manifest_redirect_validation
    (fun q => if q = "https://play.sub3.top/hls/1n1/index.m3u8"
      then ProbeResp.ok 302 (some "https://ok.myani.app/x.m3u8")
      else ProbeResp.ok 200 none)
    ["https://play.sub3.top/hls/1n1/index.m3u8"]
    "https://ok.myani.app/x.m3u8" (by decide)

/-- C5 counterexample: the frame-URL probe (resolution step 4 of the URL &
Page Resolver) accepts a redirect straight to `google.com` — a domain on the
code's own disallowed list — as the resolved link, so the claim's "never
accepted for every candidate-URL probe in the pipeline" is false. -/
theorem c5_counterexample :
    probeFrameCandidates
      (fun _ => ProbeResp.ok 302 (some "https://www.google.com/404"))
      ["https://play.sub3.top/b2/kn1.php?url=42n1&id"] =
      some "https://www.google.com/404" ∧
    redirectBlockedDomain "https://www.google.com/404" = true :=
  ⟨by decide, by decide⟩

theorem find?_prefix_first {α} (p : α → Bool) : ∀ (pre : List α) (a : α) (post : List α),
    (∀ x ∈ pre, p x = false) → p a = true →
    List.find? p (pre ++ a :: post) = some a := by
  intro pre
  induction pre with
  | nil =>
    intro a post _ ha
    rw [List.nil_append]
    exact List.find?_cons_of_pos _ ha
  | cons x xt ih =>
    intro a post hpre ha
    rw [List.cons_append, List.find?_cons_of_neg _ (by simp [hpre x (by simp)])]
    exact ih a post (fun y hy => hpre y (by simp [hy])) ha

/-- C6 (amended): the manifest fetch tries the identity catalog in order and
then the geo-spoofing bypass attempts, each attempt carrying the Origin
computed from the manifest URL; it returns the body of the first attempt
that both has HTTP status 200 and is classified `M3U8`, and it fails exactly
when no attempt of either pass satisfies that conjunction (a body classified
`M3U8` under a non-200 status is not accepted — see the counterexample). -/
theorem c6_manifest_fetch (oracle : FetchAttempt → Option HttpResp)
    (url : String) (referer : Option String) :
    (fetchManifestText oracle url referer = none ↔
      ∀ a ∈ manifestAttempts url referer, attemptAccepted oracle a = false) ∧
    (∀ pre a post, manifestAttempts url referer = pre ++ a :: post →
      (∀ x ∈ pre, attemptAccepted oracle x = false) →
      attemptAccepted oracle a = true →
      ∃ r : HttpResp, oracle a = some r ∧
        fetchManifestText oracle url referer = some r.body) ∧
    (∀ a ∈ manifestAttempts url referer, a.origin = urlOrigin url) ∧
    (∀ a ∈ primaryAttempts url referer, a.cfCountry = none) ∧
    (∀ a ∈ bypassAttempts url referer,
      a.profile = chromeProfile ∧ ∃ c ∈ cfCountries, a.cfCountry = some c) := by
  refine ⟨?_, ?_, ?_, ?_, ?_⟩
  · unfold fetchManifestText
    rw [Option.map_eq_none']
    rw [List.find?_eq_none]
    simp [Bool.not_eq_true]
  · intro pre a post heq hpre hacc
    have hf : List.find? (attemptAccepted oracle) (manifestAttempts url referer) = some a := by
      rw [heq]
      exact find?_prefix_first _ pre a post hpre hacc
    cases ho : oracle a with
    | none =>
      unfold attemptAccepted at hacc
      rw [ho] at hacc
      cases hacc
    | some r =>
      refine ⟨r, rfl, ?_⟩
      unfold fetchManifestText
      rw [hf]
      simp [ho]
  · intro a ha
    simp only [manifestAttempts, primaryAttempts, bypassAttempts, List.mem_append,
      List.mem_map] at ha
    rcases ha with ⟨p, _, hp⟩ | ⟨c, _, hp⟩ <;> subst hp <;> rfl
  · intro a ha
    simp only [primaryAttempts, List.mem_map] at ha
    rcases ha with ⟨p, _, hp⟩
    subst hp
    rfl
  · intro a ha
    simp only [bypassAttempts, List.mem_map] at ha
    rcases ha with ⟨c, hc, hp⟩
    subst hp
    exact ⟨rfl, c, hc, rfl⟩

/-- Witness for C6 (amended): with every attempt answering 200/`#EXTM3U`,
the fetch returns the body of the very first (Chrome, primary-pass)
attempt. -/
theorem c6_manifest_fetch_witness :
    fetchManifestText (fun _ => some ⟨200, "#EXTM3U"⟩)
      "https://m3k.myani.app/a/b.m3u8" (some "https://play.sub3.top/x") =
      some "#EXTM3U" := by
  obtain ⟨r, hr, hres⟩ :=
    (c6_manifest_fetch (fun _ => some ⟨200, "#EXTM3U"⟩)
      "https://m3k.myani.app/a/b.m3u8" (some "https://play.sub3.top/x")).2.1
      []
      ⟨chromeProfile, urlOrigin "https://m3k.myani.app/a/b.m3u8",
        some "https://play.sub3.top/x", none⟩
      ((browser_profiles.drop 1).map
        (fun p => (⟨p, urlOrigin "https://m3k.myani.app/a/b.m3u8",
          some "https://play.sub3.top/x", none⟩ : FetchAttempt)) ++
        bypassAttempts "https://m3k.myani.app/a/b.m3u8" (some "https://play.sub3.top/x"))
      (by rfl) (by simp) (by decide)
  rw [hres]
  injection hr with hr
  rw [← hr]

/-- C6 counterexample: an oracle answering HTTP 404 with a perfectly valid
manifest body makes every attempt fail (the code requires status 200), yet
every attempt's body is classified `M3U8` — refuting "fails iff every
attempt of both passes yields a body not classified as Manifest". -/
theorem c6_counterexample :
    fetchManifestText (fun _ => some ⟨404, "#EXTM3U\n#EXTINF:4.0,\nseg.ts"⟩)
      "https://m3k.myani.app/a/b.m3u8" none = none ∧
    ∀ a ∈ manifestAttempts "https://m3k.myani.app/a/b.m3u8" none,
      ∃ r : HttpResp,
        (fun _ : FetchAttempt => some (⟨404, "#EXTM3U\n#EXTINF:4.0,\nseg.ts"⟩ : HttpResp)) a
          = some r ∧ detect_content_type r.body = "M3U8" :=
  ⟨by decide, fun _ _ => ⟨⟨404, "#EXTM3U\n#EXTINF:4.0,\nseg.ts"⟩, rfl, by decide⟩⟩

/-- C7: on a page whose single script carries the marker assignment
`player_post = "https://iframe.example/p.php?url=42n1"` and which has no
iframe elements, the resolver produces exactly that frame URL (the `.click`
anchor of the slice parser is absent, so the quoted-string scan finds it),
and the data-id extraction yields `42n1`. -/
theorem c7_marker_page_resolution :
    resolveFrameUrl (fun _ => ProbeResp.err)
      ⟨["player_post = \"https://iframe.example/p.php?url=42n1\""], []⟩ "42" "1" =
      "https://iframe.example/p.php?url=42n1" ∧
    extractUrlParam "https://iframe.example/p.php?url=42n1".data = some "42n1" :=
  ⟨by decide, by decide⟩

/-- C9: a data id ending in a recognized `n<digit>` suffix yields a
candidate set containing the corresponding `s<digit>` variant; one ending in
a recognized `s<digit>` suffix (so not in an `n<digit>` one) yields the
corresponding `n<digit>` variant; an id with neither recognized suffix gets
exactly the base candidates, with no suffix-mutated additions — for every
domain key. -/
theorem c9_suffix_mutation (dom pdu : String) :
    (pyEndsAny pdu nSuffixes = true →
      ("https://m3k.myani.app/b2nss4/m3u8/" ++ swapSuffix "s" pdu ++ ".m3u8") ∈
        manifestCandidates dom pdu) ∧
    (pyEndsAny pdu nSuffixes = false → pyEndsAny pdu sSuffixes = true →
      ("https://bn1.imgkr4.top/file/k0625n1/" ++ swapSuffix "n" pdu ++ "/index.m3u8") ∈
        manifestCandidates dom pdu) ∧
    (pyEndsAny pdu nSuffixes = false → pyEndsAny pdu sSuffixes = false →
      manifestCandidates dom pdu = baseCandidates dom pdu) := by
  refine ⟨?_, ?_, ?_⟩
  · intro h
    unfold manifestCandidates mutatedCandidates
    rw [if_pos h]
    exact List.mem_append_right _ (by simp)
  · intro hn hs
    unfold manifestCandidates mutatedCandidates
    rw [if_neg (by simp [hn]), if_pos hs]
    exact List.mem_append_right _ (by simp)
  · intro hn hs
    unfold manifestCandidates mutatedCandidates
    rw [if_neg (by simp [hn]), if_neg (by simp [hs])]
    simp

/-- Witness for C9 at `401801n2` / `401801s2` / `401801x7`. -/
theorem c9_suffix_mutation_witness :
    ("https://m3k.myani.app/b2nss4/m3u8/" ++ swapSuffix "s" "401801n2" ++ ".m3u8") ∈
      manifestCandidates "play.sub3.top" "401801n2" ∧
    ("https://bn1.imgkr4.top/file/k0625n1/" ++ swapSuffix "n" "401801s2" ++ "/index.m3u8") ∈
      manifestCandidates "g2.myani.app" "401801s2" ∧
    manifestCandidates "g2.myani.app" "401801x7" = baseCandidates "g2.myani.app" "401801x7" :=
  ⟨(c9_suffix_mutation "play.sub3.top" "401801n2").1 (by decide),
   (c9_suffix_mutation "g2.myani.app" "401801s2").2.1 (by decide) (by decide),
   (c9_suffix_mutation "g2.myani.app" "401801x7").2.2 (by decide) (by decide)⟩

/-! ### Theorems: claim C8 -/

theorem pyStripChars_sublist (chars s : List Char) :
    (pyStripChars chars s).Sublist s := by
  unfold pyStripChars
  have h1 : (s.dropWhile (chars.contains ·)).Sublist s := List.dropWhile_sublist _
  have h2 : ((s.dropWhile (chars.contains ·)).reverse.dropWhile (chars.contains ·)).Sublist
      (s.dropWhile (chars.contains ·)).reverse := List.dropWhile_sublist _
  have h3 := List.reverse_sublist.mpr h2
  rw [List.reverse_reverse] at h3
  exact h3.trans h1

theorem pyStripChars_between (chars s : List Char) : pyStripChars chars s <:+: s := by
  unfold pyStripChars
  obtain ⟨t, ht⟩ : (s.dropWhile (chars.contains ·)).reverse.dropWhile (chars.contains ·) <:+
      (s.dropWhile (chars.contains ·)).reverse := List.dropWhile_suffix _
  have hpre : ((s.dropWhile (chars.contains ·)).reverse.dropWhile (chars.contains ·)).reverse <+:
      s.dropWhile (chars.contains ·) := by
    refine ⟨t.reverse, ?_⟩
    rw [← List.reverse_append, ht, List.reverse_reverse]
  exact List.IsInfix.trans (List.IsPrefix.isInfix hpre)
    (List.IsSuffix.isInfix (List.dropWhile_suffix _))

theorem rstrip_sublist (q : Char → Bool) (s : List Char) :
    ((s.reverse.dropWhile q).reverse).Sublist s := by
  have h2 : (s.reverse.dropWhile q).Sublist s.reverse := List.dropWhile_sublist _
  have h3 := List.reverse_sublist.mpr h2
  rwa [List.reverse_reverse] at h3

theorem stripLinkkfTag_sublist (s : List Char) : (stripLinkkfTag s).Sublist s := by
  unfold stripLinkkfTag
  split
  · exact (rstrip_sublist isPyWs _).trans
      ((List.take_sublist _ _).trans (rstrip_sublist isPyWs s))
  · exact List.Sublist.refl s

theorem stripJamakTag_sublist (s : List Char) : (stripJamakTag s).Sublist s := by
  unfold stripJamakTag
  split
  · exact List.take_sublist _ _
  · exact List.Sublist.refl s

theorem collapseRunsAux_mem (p : Char → Bool) (rep : Char) :
    ∀ (fuel : Nat) (l : List Char) (c : Char), c ∈ collapseRunsAux p rep fuel l →
      c = rep ∨ (c ∈ l ∧ p c = false) := by
  intro fuel
  induction fuel with
  | zero =>
    intro l c hc
    simp [collapseRunsAux] at hc
  | succ fuel ih =>
    intro l c hc
    cases l with
    | nil => simp [collapseRunsAux] at hc
    | cons d rest =>
      by_cases hd : p d = true
      · have he : collapseRunsAux p rep (fuel + 1) (d :: rest) =
            rep :: collapseRunsAux p rep fuel (rest.dropWhile p) := by
          simp [collapseRunsAux, hd]
        rw [he] at hc
        rcases List.mem_cons.mp hc with h | h
        · exact Or.inl h
        · rcases ih _ c h with h2 | ⟨hm, hp⟩
          · exact Or.inl h2
          · exact Or.inr ⟨List.mem_cons_of_mem _ ((List.dropWhile_sublist _).subset hm), hp⟩
      · have he : collapseRunsAux p rep (fuel + 1) (d :: rest) =
            d :: collapseRunsAux p rep fuel rest := by
          simp [collapseRunsAux, hd]
        rw [he] at hc
        rcases List.mem_cons.mp hc with h | h
        · subst h
          exact Or.inr ⟨List.mem_cons_self _ _, by simpa using hd⟩
        · rcases ih _ c h with h2 | ⟨hm, hp⟩
          · exact Or.inl h2
          · exact Or.inr ⟨List.mem_cons_of_mem _ hm, hp⟩

theorem dropWhile_head_not (p : Char → Bool) :
    ∀ (l : List Char) (c : Char), (l.dropWhile p).head? = some c → p c = false := by
  intro l
  induction l with
  | nil =>
    intro c h
    simp at h
  | cons d rest ih =>
    intro c h
    by_cases hd : p d = true
    · rw [List.dropWhile_cons, if_pos hd] at h
      exact ih c h
    · rw [List.dropWhile_cons, if_neg hd] at h
      injection h with h
      subst h
      simpa using hd

theorem collapseRunsAux_head_not (p : Char → Bool) (rep : Char) :
    ∀ (fuel : Nat) (l : List Char) (c : Char),
      (∀ d, l.head? = some d → p d = false) →
      (collapseRunsAux p rep fuel l).head? = some c → p c = false := by
  intro fuel l c hl hc
  cases fuel with
  | zero => simp [collapseRunsAux] at hc
  | succ fuel =>
    cases l with
    | nil => simp [collapseRunsAux] at hc
    | cons d rest =>
      have hd : p d = false := hl d rfl
      have he : collapseRunsAux p rep (fuel + 1) (d :: rest) =
          d :: collapseRunsAux p rep fuel rest := by
        simp [collapseRunsAux, hd]
      rw [he] at hc
      injection hc with hc
      subst hc
      exact hd

theorem collapseRunsAux_chain (p : Char → Bool) (rep : Char) :
    ∀ (fuel : Nat) (l : List Char),
      List.Chain' (fun a b => ¬(p a = true ∧ p b = true)) (collapseRunsAux p rep fuel l) := by
  intro fuel
  induction fuel with
  | zero =>
    intro l
    rw [show collapseRunsAux p rep 0 l = [] from rfl]
    exact List.chain'_nil
  | succ fuel ih =>
    intro l
    cases l with
    | nil =>
      rw [show collapseRunsAux p rep (fuel + 1) [] = [] from rfl]
      exact List.chain'_nil
    | cons d rest =>
      by_cases hd : p d = true
      · have he : collapseRunsAux p rep (fuel + 1) (d :: rest) =
            rep :: collapseRunsAux p rep fuel (rest.dropWhile p) := by
          simp [collapseRunsAux, hd]
        rw [he, List.chain'_cons']
        refine ⟨?_, ih _⟩
        intro y hy
        have hyp : p y = false :=
          collapseRunsAux_head_not p rep fuel _ y
            (fun e he2 => dropWhile_head_not p rest e he2) hy
        rintro ⟨_, h2⟩
        rw [hyp] at h2
        cases h2
      · have he : collapseRunsAux p rep (fuel + 1) (d :: rest) =
            d :: collapseRunsAux p rep fuel rest := by
          simp [collapseRunsAux, hd]
        rw [he, List.chain'_cons']
        refine ⟨?_, ih _⟩
        intro y _
        rintro ⟨h1, _⟩
        exact hd h1

theorem chain'_of_adjacent {R : Char → Char → Prop} {l : List Char}
    (h : List.Chain' R l) {a b : Char} (hinf : [a, b] <:+: l) : R a b := by
  obtain ⟨s, t, rfl⟩ := hinf
  rw [List.append_assoc] at h
  rcases List.chain'_append.mp h with ⟨_, h2, _⟩
  have h3 : List.Chain' R (a :: b :: t) := by simpa using h2
  exact (List.chain'_cons.mp h3).1

theorem sanitize_title_mem (title : String) (c : Char)
    (hc : c ∈ (sanitize_title title).data) :
    c = '_' ∨ c = ' ' ∨
      c ∈ title.data.map (fun a => if illegalChars.contains a then '_' else a) := by
  simp only [sanitize_title] at hc
  have h8 := (List.take_sublist 100 _).subset ((pyStripChars_sublist pyWsChars _).subset hc)
  rcases collapseRunsAux_mem isPyWs ' ' _ _ c h8 with h | ⟨h7, _⟩
  · exact Or.inr (Or.inl h)
  · have h6 := (List.filter_sublist _).subset h7
    have h5 := (pyStripChars_sublist pyWsChars _).subset h6
    have h4 := (stripJamakTag_sublist _).subset h5
    have h3 := (pyStripChars_sublist pyWsChars _).subset h4
    have h2 := (stripLinkkfTag_sublist _).subset h3
    have h2b := (pyStripChars_sublist ['_'] _).subset h2
    rcases collapseRunsAux_mem (fun c => c = '_') '_' _ _ c h2b with h | ⟨h1, _⟩
    · exact Or.inl h
    · exact Or.inr (Or.inr h1)

/-- C8: title sanitization is a pure function whose output, for every input
title, is at most 100 characters, contains none of the illegal path
characters `< > : " / \ | ? *`, has every whitespace character collapsed to
a single plain space with no two adjacent, and on the spec's scenario C
input `My/Show: Ep "1"?` produces exactly `My_Show_ Ep _1`. -/
theorem c8_sanitize_title :
    (∀ title : String,
      (sanitize_title title).data.length ≤ 100 ∧
      (∀ c ∈ (sanitize_title title).data, illegalChars.contains c = false) ∧
      (∀ c ∈ (sanitize_title title).data, isPyWs c = true → c = ' ') ∧
      ¬([' ', ' '] <:+: (sanitize_title title).data)) ∧
    sanitize_title "My/Show: Ep \"1\"?" = "My_Show_ Ep _1" := by
  refine ⟨fun title => ⟨?_, ?_, ?_, ?_⟩, by decide⟩
  · simp only [sanitize_title]
    refine le_trans (pyStripChars_sublist pyWsChars _).length_le ?_
    rw [List.length_take]
    exact inf_le_left
  · intro c hc
    rcases sanitize_title_mem title c hc with h | h | h
    · subst h
      decide
    · subst h
      decide
    · rcases List.mem_map.mp h with ⟨a, _, ha⟩
      by_cases hga : illegalChars.contains a = true
      · rw [if_pos hga] at ha
        subst ha
        decide
      · rw [if_neg hga] at ha
        subst ha
        simpa using hga
  · intro c hc hws
    simp only [sanitize_title] at hc
    have h8 := (List.take_sublist 100 _).subset ((pyStripChars_sublist pyWsChars _).subset hc)
    rcases collapseRunsAux_mem isPyWs ' ' _ _ c h8 with h | ⟨_, hp⟩
    · exact h
    · rw [hws] at hp
      cases hp
  · intro hinf
    simp only [sanitize_title] at hinf
    have hinf8 := hinf.trans
      ((pyStripChars_between pyWsChars _).trans
        (List.IsPrefix.isInfix ⟨_, List.take_append_drop 100 _⟩))
    have := chain'_of_adjacent (collapseRunsAux_chain isPyWs ' ' _ _) hinf8
    exact this ⟨by decide, by decide⟩
